import Mathlib

/-!
Shallow embedding of the email-discovery subsystem of the corporate-intel
repository: `app/services/email_engine.py` (classes `EmailPermutator` and
`EmailValidator`) and `app/services/pattern_engine.py` (class `PatternEngine`).

Python strings are modelled by Lean `String`; the Python string primitives
used by the code (`str.lower`, `str.strip`, `str.split`, indexing `s[0]`,
`str.format`, `str.split("@")[0]`) are modelled character-exactly for the
ASCII range by the `py*` helpers below.  A Python exception escaping a
function is modelled by `Except PyExc`: `.error` is a raised exception,
`.ok` a normal return (with `Option` standing for Python's `None`).
-/

/-- A Python exception class, as far as this subsystem can raise one. -/
inductive PyExc where
  | indexError
  | keyError
  | valueError
deriving DecidableEq, Repr

deriving instance DecidableEq for Except

/-- ASCII model of Python `str.lower` on a single character: the 26
uppercase letters map to their lowercase forms, everything else is fixed
(this is exactly core `Char.toLower`). -/
def lowerChar (c : Char) : Char :=
  Char.toLower c

/-- Python `str.lower` (ASCII model). -/
def pyLower (s : String) : String :=
  String.mk (s.data.map lowerChar)

/-- Python `str.strip`: remove leading and trailing whitespace. -/
def pyStrip (s : String) : String :=
  String.mk (((s.data.dropWhile Char.isWhitespace).reverse.dropWhile
    Char.isWhitespace).reverse)

/-- Helper for `pySplitWs`: accumulate the current (reversed) token while
scanning the characters. -/
def splitWsAux : List Char → List Char → List (List Char)
  | [], acc => if acc = [] then [] else [acc.reverse]
  | c :: cs, acc =>
    if c.isWhitespace then
      if acc = [] then splitWsAux cs [] else acc.reverse :: splitWsAux cs []
    else
      splitWsAux cs (c :: acc)

/-- Python `str.split()` with no separator: split on runs of whitespace,
discarding empty tokens. -/
def pySplitWs (s : String) : List String :=
  (splitWsAux s.data []).map String.mk

/-- Python string indexing `s[0]`, which yields a one-character string, or
raises `IndexError` when `s` is empty (modelled by `none`). -/
def pyIndex0 (s : String) : Option String :=
  match s.data with
  | [] => none
  | c :: _ => some (String.singleton c)

/-- Python `s.split("@")[0]`: the portion of `s` before the first `@`
(the whole of `s` when it has no `@`). -/
def pyBeforeAt (s : String) : String :=
  String.mk (s.data.takeWhile (fun c => c ≠ '@'))

/-- The character `\x7b`. -/
def openBrace : Char := Char.ofNat 123

/-- The character `\x7d`. -/
def closeBrace : Char := Char.ofNat 125

/-- Helper for `pyFormat`: substitute `\x7bkey\x7d` fields from `subs`,
scanning the template characters.  The `fuel` argument strictly bounds the
number of steps (each step consumes at least one character, and `pyFormat`
supplies `length + 1` fuel), so the `fuel = 0` branch is unreachable; it is
only there to make the recursion structural. -/
def pyFormatAux (subs : List (String × String)) : Nat → List Char → Except PyExc String
  | 0, _ => .error .valueError
  | _, [] => .ok ""
  | fuel + 1, c :: cs =>
    if c = openBrace then
      match cs with
      | [] => .error .valueError
      | c2 :: cs2 =>
        if c2 = openBrace then
          (pyFormatAux subs fuel cs2).map (fun r => String.singleton openBrace ++ r)
        else
          let key := cs.takeWhile (fun d => d ≠ closeBrace)
          match cs.dropWhile (fun d => d ≠ closeBrace) with
          | [] => .error .valueError
          | _ :: rest =>
            match subs.lookup (String.mk key) with
            | some v => (pyFormatAux subs fuel rest).map (fun r => v ++ r)
            | none => .error .keyError
    else if c = closeBrace then
      match cs with
      | [] => .error .valueError
      | c2 :: cs2 =>
        if c2 = closeBrace then
          (pyFormatAux subs fuel cs2).map (fun r => String.singleton closeBrace ++ r)
        else .error .valueError
    else
      (pyFormatAux subs fuel cs).map (fun r => String.singleton c ++ r)

/-- Python `pattern.format(...)` restricted to the named fields this code
uses: replaces each `\x7bkey\x7d` by its value from `subs`; an unknown key
raises `KeyError`, an unmatched brace raises `ValueError` (doubled braces
stand for literal braces, as in Python). -/
def pyFormat (pattern : String) (subs : List (String × String)) : Except PyExc String :=
  pyFormatAux subs (pattern.data.length + 1) pattern.data

/-- The state of `PatternEngine._mock_db`: a mapping from domain to the
learned local-part template (`none` when the key is absent). -/
def PatternDB : Type := String → Option String

/-- The initial, empty `_mock_db`. -/
def emptyDb : PatternDB := fun _ => none

/-- `PatternEngine.get_pattern`: `cls._mock_db.get(domain)`. -/
def PatternEngine.get_pattern (db : PatternDB) (domain : String) : Option String :=
  db domain

/-- `PatternEngine.save_pattern`: `if pattern: cls._mock_db[domain] = pattern`.
A `None` (`none`) or empty pattern is falsy, so the store is unchanged. -/
def PatternEngine.save_pattern (db : PatternDB) (domain : String)
    (pattern : Option String) : PatternDB :=
  match pattern with
  | none => db
  | some p => if p = "" then db else fun d => if d = domain then some p else db d

/-- `PatternEngine.construct_email`: lowers and strips the two names, takes
their initials (`fn[0]`/`ln[0]`, raising `IndexError` on an empty string),
formats the stored pattern and appends `@domain`. -/
def PatternEngine.construct_email (pattern first_name last_name domain : String) :
    Except PyExc String :=
  let fn := pyStrip (pyLower first_name)
  let ln := pyStrip (pyLower last_name)
  match pyIndex0 fn, pyIndex0 ln with
  | some fi, some li =>
    (pyFormat pattern [("fn", fn), ("ln", ln), ("fi", fi), ("li", li)]).map
      (fun l => l ++ "@" ++ domain)
  | _, _ => .error .indexError

/-- The chain of `if local_part == ...` tests in the body of
`PatternEngine.deduce_pattern`, in source order. -/
def deduceChain (lp fn ln fi li : String) : Option String :=
  if lp = fn ++ "." ++ ln then some "\x7bfn\x7d.\x7bln\x7d"
  else if lp = fn then some "\x7bfn\x7d"
  else if lp = fn ++ ln then some "\x7bfn\x7d\x7bln\x7d"
  else if lp = fi ++ ln then some "\x7bfi\x7d\x7bln\x7d"
  else if lp = fi ++ "." ++ ln then some "\x7bfi\x7d.\x7bln\x7d"
  else if lp = fn ++ li then some "\x7bfn\x7d\x7bli\x7d"
  else if lp = fn ++ "." ++ li then some "\x7bfn\x7d.\x7bli\x7d"
  else if lp = ln then some "\x7bln\x7d"
  else if lp = ln ++ "." ++ fn then some "\x7bln\x7d.\x7bfn\x7d"
  else if lp = fn ++ "_" ++ ln then some "\x7bfn\x7d_\x7bln\x7d"
  else none

/-- `PatternEngine.deduce_pattern`: guard on falsy arguments, extract and
lower the local part, normalize the names, take the initials (possible
`IndexError`), then run the template tests in source order. -/
def PatternEngine.deduce_pattern (valid_email first_name last_name domain : String) :
    Except PyExc (Option String) :=
  if valid_email = "" ∨ first_name = "" ∨ last_name = "" then .ok none
  else
    let lp := pyLower (pyBeforeAt valid_email)
    let fn := pyStrip (pyLower first_name)
    let ln := pyStrip (pyLower last_name)
    match pyIndex0 fn, pyIndex0 ln with
    | some fi, some li => .ok (deduceChain lp fn ln fi li)
    | _, _ => .error .indexError

/-- The templates `deduce_pattern` can recognise (its test set), in test
order. -/
def deducerTemplates : List String :=
  ["\x7bfn\x7d.\x7bln\x7d", "\x7bfn\x7d", "\x7bfn\x7d\x7bln\x7d",
   "\x7bfi\x7d\x7bln\x7d", "\x7bfi\x7d.\x7bln\x7d", "\x7bfn\x7d\x7bli\x7d",
   "\x7bfn\x7d.\x7bli\x7d", "\x7bln\x7d", "\x7bln\x7d.\x7bfn\x7d",
   "\x7bfn\x7d_\x7bln\x7d"]

/-- The `deduce_pattern` test set as (expected local part, template) pairs,
in test order. -/
def deduceTests (fn ln fi li : String) : List (String × String) :=
  [(fn ++ "." ++ ln, "\x7bfn\x7d.\x7bln\x7d"),
   (fn, "\x7bfn\x7d"),
   (fn ++ ln, "\x7bfn\x7d\x7bln\x7d"),
   (fi ++ ln, "\x7bfi\x7d\x7bln\x7d"),
   (fi ++ "." ++ ln, "\x7bfi\x7d.\x7bln\x7d"),
   (fn ++ li, "\x7bfn\x7d\x7bli\x7d"),
   (fn ++ "." ++ li, "\x7bfn\x7d.\x7bli\x7d"),
   (ln, "\x7bln\x7d"),
   (ln ++ "." ++ fn, "\x7bln\x7d.\x7bfn\x7d"),
   (fn ++ "_" ++ ln, "\x7bfn\x7d_\x7bln\x7d")]

/-- `EmailPermutator.generate`.  Empty `full_name` or `domain` short-circuit
to `[]`; a name with fewer than 2 whitespace tokens returns the single
candidate `parts[0] + "@" + domain` (raising `IndexError` when there is no
token at all); otherwise the learned pattern for the normalized domain (when
truthy) is constructed first and the 14 standard patterns are appended in
source order, skipping candidates already present. -/
def EmailPermutator.generate (db : PatternDB) (full_name domain : String) :
    Except PyExc (List String) :=
  if full_name = "" ∨ domain = "" then .ok []
  else
    let domain := pyStrip (pyLower domain)
    let parts := pySplitWs (pyStrip (pyLower full_name))
    if parts.length < 2 then
      match parts with
      | [] => .error .indexError
      | t :: _ => .ok [t ++ "@" ++ domain]
    else
      let fn := parts.headD ""
      let ln := parts.getLastD ""
      match pyIndex0 fn, pyIndex0 ln with
      | some fi, some li =>
        let initial : Except PyExc (List String) :=
          match PatternEngine.get_pattern db domain with
          | some p =>
            if p = "" then .ok []
            else (PatternEngine.construct_email p fn ln domain).map (fun e => [e])
          | none => .ok []
        initial.map (fun candidates =>
          let standard :=
            [fn ++ "@" ++ domain,
             fn ++ "." ++ ln ++ "@" ++ domain,
             fn ++ ln ++ "@" ++ domain,
             fi ++ ln ++ "@" ++ domain,
             fi ++ "." ++ ln ++ "@" ++ domain,
             fn ++ li ++ "@" ++ domain,
             fn ++ "." ++ li ++ "@" ++ domain,
             ln ++ "@" ++ domain,
             ln ++ "." ++ fn ++ "@" ++ domain,
             ln ++ fn ++ "@" ++ domain,
             fn ++ "_" ++ ln ++ "@" ++ domain,
             fn ++ "-" ++ ln ++ "@" ++ domain,
             fi ++ "-" ++ ln ++ "@" ++ domain,
             fn ++ "-" ++ li ++ "@" ++ domain]
          standard.foldl (fun acc p => if p ∈ acc then acc else acc ++ [p]) candidates)
      | _, _ => .error .indexError

/-- One line of the server-sent event stream consumed by
`EmailValidator.find_valid_email`, after the line-level classification the
source performs: `blank` is an empty line (`if not line: continue`),
`noData s` is a line not starting with `"data: "` (silently skipped),
`done` is a data line whose stripped payload is `"[DONE]"`, `badJson` is a
data line whose payload `json.loads` rejects, and `event em inp reach`
carries the decoded fields `result.get("email")`, `result.get("input")` and
`result.get("is_reachable")` (`none` when the key is absent). -/
inductive Line where
  | blank
  | noData (s : String)
  | done
  | badJson (s : String)
  | event (em inp reach : Option String)
deriving DecidableEq, Repr

/-- The validation outcome dictionary `{"email": ..., "status": ..., "score": ...}`. -/
structure VRes where
  email : Option String
  status : String
  score : Nat
deriving DecidableEq, Repr

/-- Python `result.get("email") or result.get("input")`: `or` falls through
on falsy values, i.e. on `None` and on the empty string. -/
def pyOr (a b : Option String) : Option String :=
  match a with
  | none => b
  | some s => if s = "" then b else some s

/-- The body of `find_valid_email`'s `try` block: iterate over the stream
lines with the `risky_email` backup as state.  `err = true` means the
connection fails (timeout, HTTP or protocol error) when the code tries to
read past the listed lines; the surrounding `except` handlers turn that
into a `None` return. -/
def runStream : List Line → Bool → Option VRes → Option VRes
  | [], err, risky => if err then none else risky
  | l :: rest, err, risky =>
    match l with
    | .blank => runStream rest err risky
    | .noData _ => runStream rest err risky
    | .done => risky
    | .badJson _ => runStream rest err risky
    | .event em inp reach =>
      if reach = some "safe" then some ⟨pyOr em inp, "safe", 100⟩
      else if reach = some "risky" ∧ risky = none then
        runStream rest err (some ⟨pyOr em inp, "risky", 50⟩)
      else runStream rest err risky

/-- `EmailValidator.find_valid_email`: an empty candidate list returns
`None` before any network activity; otherwise the streamed lines are
consumed as in `runStream`, starting with no risky backup. -/
def EmailValidator.find_valid_email (email_list : List String)
    (lines : List Line) (err : Bool) : Option VRes :=
  if email_list = [] then none
  else runStream lines err none

/-- The first `risky`-classified event of a line list (used to state the
fallback rule); the list is assumed free of terminator lines. -/
def firstRisky : List Line → Option (Option String × Option String)
  | [] => none
  | .event em inp reach :: rest =>
    if reach = some "risky" then some (em, inp) else firstRisky rest
  | _ :: rest => firstRisky rest

/-- Whether a stream line is an event classified `safe`. -/
def isSafeLine : Line → Bool
  | .event _ _ reach => reach = some "safe"
  | _ => false

/-- Whether a stream line is the `[DONE]` terminator. -/
def isDoneLine : Line → Bool
  | .done => true
  | _ => false

/-- The fallback value computed at normal end of stream: the retained risky
backup if any, else the first risky event of the consumed body, else `none`. -/
def riskyFallback (risky : Option VRes) (body : List Line) : Option VRes :=
  match risky with
  | some r => some r
  | none =>
    match firstRisky body with
    | some (em, inp) => some ⟨pyOr em inp, "risky", 50⟩
    | none => none

/-! ### Helper lemmas about the string model -/

theorem char_toNat_ofNat (n : Nat) (h : n.isValidChar) : (Char.ofNat n).toNat = n := by
  rw [Char.ofNat, dif_pos h]
  rfl

theorem lowerChar_eq_self_or_range (c : Char) :
    lowerChar c = c ∨ (97 ≤ (lowerChar c).toNat ∧ (lowerChar c).toNat ≤ 122) := by
  simp only [lowerChar, Char.toLower]
  by_cases h : c.toNat ≥ 65 ∧ c.toNat ≤ 90
  · rw [if_pos h]
    right
    rw [char_toNat_ofNat _ (Or.inl (by omega))]
    omega
  · rw [if_neg h]
    left; rfl

theorem lowerChar_fix (c : Char) : lowerChar (lowerChar c) = lowerChar c := by
  rcases lowerChar_eq_self_or_range c with h | h
  · rw [h, h]
  · generalize hr : lowerChar c = r at h ⊢
    simp only [lowerChar, Char.toLower]
    rw [if_neg (by omega)]

theorem ws_toNat (c : Char) (h : c.isWhitespace = true) :
    c.toNat = 32 ∨ c.toNat = 9 ∨ c.toNat = 13 ∨ c.toNat = 10 := by
  simp [Char.isWhitespace] at h
  rcases h with ((h | h) | h) | h <;> subst h <;> decide

theorem lowerChar_not_ws (c : Char) (h : c.isWhitespace = false) :
    (lowerChar c).isWhitespace = false := by
  rcases lowerChar_eq_self_or_range c with h2 | h2
  · rw [h2]; exact h
  · rcases hw : (lowerChar c).isWhitespace with _ | _
    · rfl
    · have := ws_toNat _ hw
      omega

theorem lowerChar_ne_at (c : Char) (h : c ≠ '@') : lowerChar c ≠ '@' := by
  rcases lowerChar_eq_self_or_range c with h2 | h2
  · rw [h2]; exact h
  · intro he
    have h3 := congrArg Char.toNat he
    rw [show ('@' : Char).toNat = 64 from rfl] at h3
    omega

theorem str_ne_empty_iff (s : String) : s ≠ "" ↔ s.data ≠ [] := by
  constructor
  · intro h hd
    exact h (String.ext hd)
  · intro h he
    exact h (by rw [he])

theorem str_append_assoc (a b c : String) : a ++ b ++ c = a ++ (b ++ c) :=
  String.ext (by simp [String.data_append, List.append_assoc])

theorem str_append_empty (a : String) : a ++ "" = a :=
  String.ext (by simp [String.data_append])

theorem str_empty_append (a : String) : "" ++ a = a :=
  String.ext (by simp [String.data_append])

theorem mem_of_mem_dropWhile (p : Char → Bool) (l : List Char) (c : Char)
    (h : c ∈ l.dropWhile p) : c ∈ l := by
  induction l with
  | nil => simpa using h
  | cons a as ih =>
    rw [List.dropWhile_cons] at h
    by_cases hp : p a = true
    · simp only [hp, if_true] at h
      exact List.mem_cons_of_mem a (ih h)
    · simp only [hp, if_false] at h
      exact h

theorem dropWhile_eq_self_of_not (p : Char → Bool) (l : List Char)
    (h : ∀ c ∈ l, p c = false) : l.dropWhile p = l := by
  cases l with
  | nil => rfl
  | cons a as =>
    rw [List.dropWhile_cons, h a (List.mem_cons_self a as)]
    simp

theorem pyStrip_mem (s : String) (c : Char) (h : c ∈ (pyStrip s).data) :
    c ∈ s.data := by
  simp only [pyStrip] at h
  rw [List.mem_reverse] at h
  have h2 := mem_of_mem_dropWhile _ _ _ h
  rw [List.mem_reverse] at h2
  exact mem_of_mem_dropWhile _ _ _ h2

theorem pyStrip_eq_self (s : String) (h : ∀ c ∈ s.data, c.isWhitespace = false) :
    pyStrip s = s := by
  apply String.ext
  simp only [pyStrip]
  rw [dropWhile_eq_self_of_not _ _ h]
  rw [dropWhile_eq_self_of_not _ _ (fun c hc => h c (List.mem_reverse.mp hc))]
  simp

theorem map_eq_self_of_fix {α : Type} (f : α → α) (l : List α)
    (h : ∀ c ∈ l, f c = c) : l.map f = l := by
  induction l with
  | nil => rfl
  | cons a as ih =>
    simp only [List.map_cons, h a (List.mem_cons_self a as)]
    rw [ih (fun c hc => h c (List.mem_cons_of_mem a hc))]

theorem pyLower_eq_self (s : String) (h : ∀ c ∈ s.data, lowerChar c = c) :
    pyLower s = s :=
  String.ext (map_eq_self_of_fix _ _ h)

theorem pyLower_mem_image (s : String) (c : Char) (h : c ∈ (pyLower s).data) :
    ∃ c0, c = lowerChar c0 := by
  simp only [pyLower, List.mem_map] at h
  obtain ⟨c0, _, hc⟩ := h
  exact ⟨c0, hc.symm⟩

theorem splitWsAux_ne_nil (l : List Char) : ∀ (acc : List Char) (t : List Char),
    t ∈ splitWsAux l acc → t ≠ [] := by
  induction l with
  | nil =>
    intro acc t ht
    simp only [splitWsAux] at ht
    split at ht
    · simp at ht
    · next hacc =>
      simp only [List.mem_singleton] at ht
      subst ht
      simpa using hacc
  | cons c cs ih =>
    intro acc t ht
    simp only [splitWsAux] at ht
    split at ht
    · split at ht
      · exact ih [] t ht
      · next hacc =>
        rcases List.mem_cons.mp ht with h | h
        · subst h
          simpa using hacc
        · exact ih [] t h
    · exact ih (c :: acc) t ht

theorem splitWsAux_mem_chars (l : List Char) : ∀ (acc t : List Char) (c : Char),
    t ∈ splitWsAux l acc → c ∈ t → c ∈ acc ∨ c ∈ l := by
  induction l with
  | nil =>
    intro acc t c ht hc
    simp only [splitWsAux] at ht
    split at ht
    · simp at ht
    · simp only [List.mem_singleton] at ht
      subst ht
      exact Or.inl (List.mem_reverse.mp hc)
  | cons a as ih =>
    intro acc t c ht hc
    simp only [splitWsAux] at ht
    split at ht
    · split at ht
      · rcases ih [] t c ht hc with h | h
        · simp at h
        · exact Or.inr (List.mem_cons_of_mem a h)
      · rcases List.mem_cons.mp ht with h | h
        · subst h
          exact Or.inl (List.mem_reverse.mp hc)
        · rcases ih [] t c h hc with h2 | h2
          · simp at h2
          · exact Or.inr (List.mem_cons_of_mem a h2)
    · rcases ih (a :: acc) t c ht hc with h | h
      · rcases List.mem_cons.mp h with h2 | h2
        · exact Or.inr (List.mem_cons.mpr (Or.inl h2))
        · exact Or.inl h2
      · exact Or.inr (List.mem_cons_of_mem a h)

theorem splitWsAux_not_ws (l : List Char) : ∀ (acc t : List Char) (c : Char),
    (∀ d ∈ acc, d.isWhitespace = false) →
    t ∈ splitWsAux l acc → c ∈ t → c.isWhitespace = false := by
  induction l with
  | nil =>
    intro acc t c hacc ht hc
    simp only [splitWsAux] at ht
    split at ht
    · simp at ht
    · simp only [List.mem_singleton] at ht
      subst ht
      exact hacc c (List.mem_reverse.mp hc)
  | cons a as ih =>
    intro acc t c hacc ht hc
    simp only [splitWsAux] at ht
    split at ht
    · split at ht
      · exact ih [] t c (by simp) ht hc
      · rcases List.mem_cons.mp ht with h | h
        · subst h
          exact hacc c (List.mem_reverse.mp hc)
        · exact ih [] t c (by simp) h hc
    · next hws =>
      refine ih (a :: acc) t c ?_ ht hc
      intro d hd
      rcases List.mem_cons.mp hd with h2 | h2
      · subst h2
        simpa using hws
      · exact hacc d h2

theorem pySplitWs_token_ne_empty (s : String) (t : String) (ht : t ∈ pySplitWs s) :
    t ≠ "" := by
  simp only [pySplitWs, List.mem_map] at ht
  obtain ⟨l, hl, rfl⟩ := ht
  rw [str_ne_empty_iff]
  exact splitWsAux_ne_nil _ _ _ hl

theorem pySplitWs_token_chars (s : String) (t : String) (c : Char)
    (ht : t ∈ pySplitWs s) (hc : c ∈ t.data) : c ∈ s.data := by
  simp only [pySplitWs, List.mem_map] at ht
  obtain ⟨l, hl, rfl⟩ := ht
  rcases splitWsAux_mem_chars _ _ _ _ hl hc with h | h
  · simp at h
  · exact h

theorem pySplitWs_token_not_ws (s : String) (t : String) (c : Char)
    (ht : t ∈ pySplitWs s) (hc : c ∈ t.data) : c.isWhitespace = false := by
  simp only [pySplitWs, List.mem_map] at ht
  obtain ⟨l, hl, rfl⟩ := ht
  exact splitWsAux_not_ws _ _ _ _ (by simp) hl hc

theorem pyLower_data (s : String) : (pyLower s).data = s.data.map lowerChar := rfl

theorem token_norm (s t : String) (ht : t ∈ pySplitWs (pyStrip (pyLower s))) :
    pyLower t = t ∧ pyStrip t = t ∧ t ≠ "" := by
  refine ⟨?_, ?_, pySplitWs_token_ne_empty _ _ ht⟩
  · apply pyLower_eq_self
    intro c hc
    have h1 := pySplitWs_token_chars _ _ _ ht hc
    have h2 := pyStrip_mem _ _ h1
    obtain ⟨c0, rfl⟩ := pyLower_mem_image _ _ h2
    exact lowerChar_fix c0
  · apply pyStrip_eq_self
    intro c hc
    exact pySplitWs_token_not_ws _ _ _ ht hc

theorem takeWhile_append_stop (p : Char → Bool) (l : List Char) (y : Char)
    (r : List Char) (hl : ∀ c ∈ l, p c = true) (hy : p y = false) :
    (l ++ y :: r).takeWhile p = l := by
  induction l with
  | nil =>
    simp [List.takeWhile_cons, hy]
  | cons a as ih =>
    rw [List.cons_append, List.takeWhile_cons, hl a (List.mem_cons_self a as)]
    rw [if_pos rfl, ih (fun c hc => hl c (List.mem_cons_of_mem a hc))]

theorem str_data_at : ("@" : String).data = ['@'] := rfl

theorem pyBeforeAt_append (l d : String) (hl : ∀ c ∈ l.data, c ≠ '@') :
    pyBeforeAt (l ++ "@" ++ d) = l := by
  apply String.ext
  show ((l ++ "@" ++ d).data.takeWhile (fun c => c ≠ '@')) = l.data
  rw [String.data_append, String.data_append, str_data_at, List.append_assoc,
    List.singleton_append]
  apply takeWhile_append_stop
  · intro c hc
    simpa using hl c hc
  · simp

theorem foldl_dedup_extend (ps : List String) : ∀ (acc : List String), ∃ tl,
    ps.foldl (fun acc p => if p ∈ acc then acc else acc ++ [p]) acc = acc ++ tl := by
  induction ps with
  | nil => exact fun acc => ⟨[], by simp⟩
  | cons p ps ih =>
    intro acc
    rw [List.foldl_cons]
    by_cases hp : p ∈ acc
    · rw [if_pos hp]
      exact ih acc
    · rw [if_neg hp]
      obtain ⟨tl, htl⟩ := ih (acc ++ [p])
      exact ⟨[p] ++ tl, by rw [htl, List.append_assoc]⟩

theorem foldl_dedup_nodup (ps : List String) : ∀ (acc : List String), acc.Nodup →
    (ps.foldl (fun acc p => if p ∈ acc then acc else acc ++ [p]) acc).Nodup := by
  induction ps with
  | nil => exact fun acc h => h
  | cons p ps ih =>
    intro acc hacc
    rw [List.foldl_cons]
    by_cases hp : p ∈ acc
    · rw [if_pos hp]
      exact ih acc hacc
    · rw [if_neg hp]
      refine ih (acc ++ [p]) ?_
      rw [List.nodup_append]
      exact ⟨hacc, List.nodup_singleton p, by simpa using hp⟩

theorem runStream_event (em inp reach : Option String) (rest : List Line)
    (err : Bool) (risky : Option VRes) :
    runStream (Line.event em inp reach :: rest) err risky =
      if reach = some "safe" then some ⟨pyOr em inp, "safe", 100⟩
      else if reach = some "risky" ∧ risky = none then
        runStream rest err (some ⟨pyOr em inp, "risky", 50⟩)
      else runStream rest err risky := rfl

theorem firstRisky_event (em inp reach : Option String) (rest : List Line) :
    firstRisky (Line.event em inp reach :: rest) =
      if reach = some "risky" then some (em, inp) else firstRisky rest := rfl

theorem runStream_safe (em inp : Option String) (post : List Line) (err : Bool) :
    ∀ (pre : List Line) (risky : Option VRes),
    (∀ l ∈ pre, isSafeLine l = false ∧ isDoneLine l = false) →
    runStream (pre ++ Line.event em inp (some "safe") :: post) err risky =
      some ⟨pyOr em inp, "safe", 100⟩ := by
  intro pre
  induction pre with
  | nil =>
    intro risky _
    rw [List.nil_append, runStream_event, if_pos rfl]
  | cons l pre ih =>
    intro risky hpre
    have hl := hpre l (List.mem_cons_self l pre)
    have htail : ∀ l ∈ pre, isSafeLine l = false ∧ isDoneLine l = false :=
      fun l hm => hpre l (List.mem_cons_of_mem _ hm)
    cases l with
    | blank => rw [List.cons_append]; exact ih risky htail
    | noData s => rw [List.cons_append]; exact ih risky htail
    | badJson s => rw [List.cons_append]; exact ih risky htail
    | done => simp [isDoneLine] at hl
    | event em2 inp2 reach2 =>
      have hns : reach2 ≠ some "safe" := by
        have := hl.1
        simp [isSafeLine] at this
        exact this
      rw [List.cons_append, runStream_event, if_neg hns]
      by_cases hr : reach2 = some "risky" ∧ risky = none
      · rw [if_pos hr]; exact ih _ htail
      · rw [if_neg hr]; exact ih _ htail

theorem runStream_no_safe (rest : List Line) (err : Bool) :
    ∀ (body : List Line) (risky : Option VRes),
    (∀ l ∈ body, isSafeLine l = false ∧ isDoneLine l = false) →
    runStream (body ++ Line.done :: rest) err risky = riskyFallback risky body := by
  intro body
  induction body with
  | nil =>
    intro risky _
    cases risky <;> rfl
  | cons l body ih =>
    intro risky hbody
    have hl := hbody l (List.mem_cons_self l body)
    have htail : ∀ l ∈ body, isSafeLine l = false ∧ isDoneLine l = false :=
      fun l hm => hbody l (List.mem_cons_of_mem _ hm)
    cases l with
    | blank => rw [List.cons_append]; exact ih risky htail
    | noData s => rw [List.cons_append]; exact ih risky htail
    | badJson s => rw [List.cons_append]; exact ih risky htail
    | done => simp [isDoneLine] at hl
    | event em2 inp2 reach2 =>
      have hns : reach2 ≠ some "safe" := by
        have := hl.1
        simp [isSafeLine] at this
        exact this
      rw [List.cons_append, runStream_event, if_neg hns]
      by_cases hr : reach2 = some "risky" ∧ risky = none
      · rw [if_pos hr, ih _ htail]
        obtain ⟨hr2, hrn⟩ := hr
        subst hrn
        simp [riskyFallback, firstRisky_event, hr2]
      · rw [if_neg hr, ih _ htail]
        cases risky with
        | some r => rfl
        | none =>
          have hnr : reach2 ≠ some "risky" := fun hx => hr ⟨hx, rfl⟩
          simp [riskyFallback, firstRisky_event, hnr]

theorem runStream_err_none (lines : List Line) :
    ∀ (risky : Option VRes),
    (∀ l ∈ lines, isSafeLine l = false ∧ isDoneLine l = false) →
    runStream lines true risky = none := by
  induction lines with
  | nil => intro risky _; rfl
  | cons l lines ih =>
    intro risky hl2
    have hl := hl2 l (List.mem_cons_self l lines)
    have htail : ∀ l ∈ lines, isSafeLine l = false ∧ isDoneLine l = false :=
      fun l hm => hl2 l (List.mem_cons_of_mem _ hm)
    cases l with
    | blank => exact ih risky htail
    | noData s => exact ih risky htail
    | badJson s => exact ih risky htail
    | done => simp [isDoneLine] at hl
    | event em2 inp2 reach2 =>
      have hns : reach2 ≠ some "safe" := by
        have := hl.1
        simp [isSafeLine] at this
        exact this
      rw [runStream_event, if_neg hns]
      by_cases hr : reach2 = some "risky" ∧ risky = none
      · rw [if_pos hr]; exact ih _ htail
      · rw [if_neg hr]; exact ih _ htail

theorem runStream_skip_badJson (s : String) (rest : List Line) (err : Bool) :
    ∀ (pre : List Line) (risky : Option VRes),
    runStream (pre ++ Line.badJson s :: rest) err risky =
      runStream (pre ++ rest) err risky := by
  intro pre
  induction pre with
  | nil => intro risky; rfl
  | cons l pre ih =>
    intro risky
    cases l with
    | blank => exact ih risky
    | noData s2 => exact ih risky
    | badJson s2 => exact ih risky
    | done => rfl
    | event em2 inp2 reach2 =>
      rw [List.cons_append, List.cons_append, runStream_event, runStream_event]
      by_cases hs : reach2 = some "safe"
      · rw [if_pos hs, if_pos hs]
      · rw [if_neg hs, if_neg hs]
        by_cases hr : reach2 = some "risky" ∧ risky = none
        · rw [if_pos hr, if_pos hr]; exact ih _
        · rw [if_neg hr, if_neg hr]; exact ih _

theorem save_pattern_frame (db : PatternDB) (d0 d : String)
    (p : Option String) (hne : d ≠ d0) :
    PatternEngine.get_pattern (PatternEngine.save_pattern db d0 p) d =
      PatternEngine.get_pattern db d := by
  cases p with
  | none => rfl
  | some q =>
    by_cases hq : q = ""
    · simp [PatternEngine.save_pattern, hq]
    · simp [PatternEngine.save_pattern, PatternEngine.get_pattern, hq, hne]

theorem foldl_save_frame (d : String) :
    ∀ (ops : List (String × Option String)) (db : PatternDB),
    (∀ o ∈ ops, o.1 ≠ d) →
    PatternEngine.get_pattern
      (ops.foldl (fun db o => PatternEngine.save_pattern db o.1 o.2) db) d =
      PatternEngine.get_pattern db d := by
  intro ops
  induction ops with
  | nil => intro db _; rfl
  | cons o ops ih =>
    intro db hops
    rw [List.foldl_cons]
    rw [ih _ (fun o2 h2 => hops o2 (List.mem_cons_of_mem _ h2))]
    exact save_pattern_frame db o.1 d o.2
      (fun he => hops o (List.mem_cons_self o ops) (by rw [he]))

/-! ### The claims -/

/-- C1: with no learned pattern for `openai.com`, `generate "Sam Altman"
"openai.com"` returns exactly the 14 standard candidates, in the fixed
source order (first four: `sam@`, `sam.altman@`, `samaltman@`, `saltman@`). -/
theorem C1_standard_patterns_sam_altman :
    PatternEngine.get_pattern emptyDb "openai.com" = none ∧
    EmailPermutator.generate emptyDb "Sam Altman" "openai.com" =
      .ok ["sam@openai.com", "sam.altman@openai.com", "samaltman@openai.com",
        "saltman@openai.com", "s.altman@openai.com", "sama@openai.com",
        "sam.a@openai.com", "altman@openai.com", "altman.sam@openai.com",
        "altmansam@openai.com", "sam_altman@openai.com", "sam-altman@openai.com",
        "s-altman@openai.com", "sam-a@openai.com"] := by
  exact ⟨rfl, by decide⟩

/-- C3: the claim that no operation ever raises is contradicted by the code:
a whitespace-only (hence non-empty, hence truthy) name passes the emptiness
guard, splits into zero tokens, and `parts[0]` / `fn[0]` raise `IndexError`
— in `generate` and in `deduce_pattern` alike. -/
theorem C3_whitespace_name_raises :
    EmailPermutator.generate emptyDb " " "example.com" =
      .error PyExc.indexError ∧
    PatternEngine.deduce_pattern "ann@example.com" " " "smith" "example.com" =
      .error PyExc.indexError := by
  constructor <;> decide

/-- C4: the first `safe`-classified event terminates consumption and is
returned with status `safe` and maximal score 100, whatever risky events
preceded it and whatever follows it in the stream (including a later
connection failure, `err`). -/
theorem C4_safe_early_exit (emails : List String) (pre post : List Line)
    (em inp : Option String) (err : Bool) (hne : emails ≠ [])
    (hpre : ∀ l ∈ pre, isSafeLine l = false ∧ isDoneLine l = false) :
    EmailValidator.find_valid_email emails
        (pre ++ Line.event em inp (some "safe") :: post) err =
      some ⟨pyOr em inp, "safe", 100⟩ := by
  unfold EmailValidator.find_valid_email
  rw [if_neg hne]
  exact runStream_safe em inp post err pre none hpre

/-- Witness for C4: a stream emitting `risky` then `safe` then the
terminator yields the safe result, not the risky one. -/
theorem C4_safe_early_exit_witness :
    EmailValidator.find_valid_email ["a@x.com"]
        ([Line.event (some "r@x.com") none (some "risky")] ++
          Line.event (some "s@x.com") none (some "safe") :: [Line.done]) false =
      some ⟨some "s@x.com", "safe", 100⟩ :=
  C4_safe_early_exit ["a@x.com"] _ _ _ _ false (by decide) (by decide)

/-- C5: on a stream with no `safe` event that reaches the terminator, the
result is the first `risky`-classified event (status `risky`, score 50),
or `none` when no risky event occurred; later risky events are ignored. -/
theorem C5_first_risky_fallback (emails : List String) (body rest : List Line)
    (err : Bool) (hne : emails ≠ [])
    (hbody : ∀ l ∈ body, isSafeLine l = false ∧ isDoneLine l = false) :
    EmailValidator.find_valid_email emails (body ++ Line.done :: rest) err =
      riskyFallback none body := by
  unfold EmailValidator.find_valid_email
  rw [if_neg hne]
  exact runStream_no_safe rest err body none hbody

/-- Witness for C5: two distinct risky events then the terminator — the
first risky email is returned, not the second. -/
theorem C5_first_risky_fallback_witness :
    EmailValidator.find_valid_email ["a@x.com"]
        ([Line.event (some "r1@x.com") none (some "risky"),
          Line.event (some "r2@x.com") none (some "risky")] ++
          Line.done :: []) false =
      some ⟨some "r1@x.com", "risky", 50⟩ :=
  C5_first_risky_fallback ["a@x.com"] _ _ false (by decide) (by decide)

/-- C6: (i) a stream that fails (timeout, HTTP or protocol error) before
any `safe` event or terminator makes `find_valid_email` return `none`
(exceptions are caught, never re-raised — the model is a total function);
(ii) an empty candidate list returns `none` whatever the network would have
answered (no network call is observable); (iii) a single undecodable event
is skipped without affecting the result. -/
theorem C6_failure_empty_and_skip :
    (∀ (emails : List String) (lines : List Line), emails ≠ [] →
      (∀ l ∈ lines, isSafeLine l = false ∧ isDoneLine l = false) →
      EmailValidator.find_valid_email emails lines true = none) ∧
    (∀ (lines : List Line) (err : Bool),
      EmailValidator.find_valid_email [] lines err = none) ∧
    (∀ (emails : List String) (pre rest : List Line) (s : String) (err : Bool),
      EmailValidator.find_valid_email emails (pre ++ Line.badJson s :: rest) err =
        EmailValidator.find_valid_email emails (pre ++ rest) err) := by
  refine ⟨?_, ?_, ?_⟩
  · intro emails lines hne hl
    unfold EmailValidator.find_valid_email
    rw [if_neg hne]
    exact runStream_err_none lines none hl
  · intro lines err
    rfl
  · intro emails pre rest s err
    unfold EmailValidator.find_valid_email
    by_cases hne : emails = []
    · rw [if_pos hne, if_pos hne]
    · rw [if_neg hne, if_neg hne]
      exact runStream_skip_badJson s rest err pre none

/-- Witness for C6: a mid-stream failure after a risky event returns `none`;
an empty candidate list returns `none`; dropping one undecodable line does
not change the outcome. -/
theorem C6_failure_empty_and_skip_witness :
    EmailValidator.find_valid_email ["a@x.com"]
        [Line.event (some "r@x.com") none (some "risky")] true = none ∧
    EmailValidator.find_valid_email []
        [Line.event (some "s@x.com") none (some "safe")] false = none ∧
    EmailValidator.find_valid_email ["a@x.com"]
        ([] ++ Line.badJson "zz" :: [Line.event (some "s@x.com") none (some "safe")])
        false =
      EmailValidator.find_valid_email ["a@x.com"]
        ([] ++ [Line.event (some "s@x.com") none (some "safe")]) false :=
  ⟨C6_failure_empty_and_skip.1 ["a@x.com"] _ (by decide) (by decide),
   C6_failure_empty_and_skip.2.1 _ false,
   C6_failure_empty_and_skip.2.2 ["a@x.com"] [] _ "zz" false⟩

/-- C9: `save_pattern` with a null or empty template leaves every
`get_pattern` result unchanged; with a non-empty template it overwrites the
stored template of exactly that domain and leaves every other domain alone;
and a domain never saved (any sequence of saves that avoids it, starting
from the empty store) still looks up to `none`. -/
theorem C9_pattern_store_semantics :
    (∀ (db : PatternDB) (d d' : String),
      PatternEngine.get_pattern (PatternEngine.save_pattern db d none) d' =
        PatternEngine.get_pattern db d' ∧
      PatternEngine.get_pattern (PatternEngine.save_pattern db d (some "")) d' =
        PatternEngine.get_pattern db d') ∧
    (∀ (db : PatternDB) (d p : String), p ≠ "" →
      PatternEngine.get_pattern (PatternEngine.save_pattern db d (some p)) d =
        some p) ∧
    (∀ (db : PatternDB) (d p d' : String), p ≠ "" → d' ≠ d →
      PatternEngine.get_pattern (PatternEngine.save_pattern db d (some p)) d' =
        PatternEngine.get_pattern db d') ∧
    (∀ (ops : List (String × Option String)) (d : String),
      (∀ o ∈ ops, o.1 ≠ d) →
      PatternEngine.get_pattern
        (ops.foldl (fun db o => PatternEngine.save_pattern db o.1 o.2) emptyDb) d =
        none) := by
  refine ⟨?_, ?_, ?_, ?_⟩
  · intro db d d'
    exact ⟨rfl, by simp [PatternEngine.save_pattern]⟩
  · intro db d p hp
    simp [PatternEngine.save_pattern, PatternEngine.get_pattern, hp]
  · intro db d p d' hp hne
    exact save_pattern_frame db d d' (some p) hne
  · intro ops d hops
    rw [foldl_save_frame d ops emptyDb hops]
    rfl

/-- Witness for C9: storing a template for `a.com` makes `get_pattern`
return it for `a.com`, leaves `b.com` untouched, and a store built only
from saves to `a.com` still answers `none` for `b.com`. -/
theorem C9_pattern_store_semantics_witness :
    PatternEngine.get_pattern
        (PatternEngine.save_pattern emptyDb "a.com" (some "\x7bfn\x7d")) "a.com" =
      some "\x7bfn\x7d" ∧
    PatternEngine.get_pattern
        (PatternEngine.save_pattern emptyDb "a.com" (some "\x7bfn\x7d")) "b.com" =
      PatternEngine.get_pattern emptyDb "b.com" ∧
    PatternEngine.get_pattern
        ([(("a.com" : String), some ("\x7bfn\x7d" : String))].foldl
          (fun db o => PatternEngine.save_pattern db o.1 o.2) emptyDb) "b.com" =
      none :=
  ⟨C9_pattern_store_semantics.2.1 emptyDb "a.com" "\x7bfn\x7d" (by decide),
   C9_pattern_store_semantics.2.2.1 emptyDb "a.com" "\x7bfn\x7d" "b.com"
     (by decide) (by decide),
   C9_pattern_store_semantics.2.2.2 _ "b.com" (by decide)⟩

/-- C10: the `domain` argument of `deduce_pattern` has no influence on its
result; and the result depends only on the part of `valid_email` before the
first `@` (together with the two names), for non-empty emails. -/
theorem C10_domain_has_no_influence :
    (∀ (e f l d1 d2 : String),
      PatternEngine.deduce_pattern e f l d1 =
        PatternEngine.deduce_pattern e f l d2) ∧
    (∀ (e1 e2 f l d : String), e1 ≠ "" → e2 ≠ "" →
      pyBeforeAt e1 = pyBeforeAt e2 →
      PatternEngine.deduce_pattern e1 f l d =
        PatternEngine.deduce_pattern e2 f l d) := by
  constructor
  · intro e f l d1 d2
    rfl
  · intro e1 e2 f l d h1 h2 hb
    unfold PatternEngine.deduce_pattern
    by_cases hf : f = "" ∨ l = ""
    · rw [if_pos (Or.inr hf), if_pos (Or.inr hf)]
    · rw [if_neg (by tauto), if_neg (by tauto)]
      rw [hb]

/-- Witness for C10: `"ann"` (no `@` at all) and `"ann@y.com"` have the
same local part, so deduction agrees on them. -/
theorem C10_domain_has_no_influence_witness :
    PatternEngine.deduce_pattern "ann" "ann" "lee" "x.com" =
      PatternEngine.deduce_pattern "ann@y.com" "ann" "lee" "x.com" :=
  C10_domain_has_no_influence.2 "ann" "ann@y.com" "ann" "lee" "x.com"
    (by decide) (by decide) (by decide)

/-- C7, counterexample: the claim covers every non-empty name whose split
yields fewer than 2 tokens, but for a whitespace-only name the split yields
zero tokens and `generate` raises `IndexError` instead of returning a
single-candidate list. -/
theorem C7_counterexample :
    (" " : String) ≠ "" ∧ ("x.com" : String) ≠ "" ∧
    (pySplitWs (pyStrip (pyLower " "))).length < 2 ∧
    EmailPermutator.generate emptyDb " " "x.com" = .error PyExc.indexError := by
  refine ⟨by decide, by decide, by decide, by decide⟩

/-- C7, amended: for every name whose whitespace split yields exactly one
token and every non-empty domain, `generate` returns the single candidate
`token@normalized-domain` — for every store state, i.e. with no pattern
lookup — and `generate` returns `[]` whenever the name or the domain is the
empty string. -/
theorem C7_single_token_generate :
    (∀ (db : PatternDB) (full_name domain t : String), domain ≠ "" →
      pySplitWs (pyStrip (pyLower full_name)) = [t] →
      EmailPermutator.generate db full_name domain =
        .ok [t ++ "@" ++ pyStrip (pyLower domain)]) ∧
    (∀ (db : PatternDB) (n d : String), n = "" ∨ d = "" →
      EmailPermutator.generate db n d = .ok []) := by
  constructor
  · intro db full_name domain t hd ht
    have hn : full_name ≠ "" := by
      intro he
      rw [he] at ht
      simp [pySplitWs, pyStrip, pyLower, splitWsAux] at ht
    unfold EmailPermutator.generate
    rw [if_neg (fun h => h.elim hn hd)]
    simp only [ht]
    rfl
  · intro db n d h
    unfold EmailPermutator.generate
    rw [if_pos h]

/-- Witness for C7: a one-token name gives exactly one candidate (whatever
the store holds — here the empty store), and an empty name gives `[]`. -/
theorem C7_single_token_generate_witness :
    EmailPermutator.generate emptyDb "Madonna" "X.com" = .ok ["madonna@x.com"] ∧
    EmailPermutator.generate emptyDb "" "x.com" = .ok [] :=
  ⟨C7_single_token_generate.1 emptyDb "Madonna" "X.com" "madonna"
     (by decide) (by decide),
   C7_single_token_generate.2 emptyDb "" "x.com" (Or.inl rfl)⟩

theorem pyFormat_t1 (fn ln fi li : String) :
    pyFormat "\x7bfn\x7d.\x7bln\x7d" [("fn", fn), ("ln", ln), ("fi", fi), ("li", li)] =
      .ok (fn ++ ("." ++ (ln ++ ""))) := rfl
theorem pyFormat_t2 (fn ln fi li : String) :
    pyFormat "\x7bfn\x7d" [("fn", fn), ("ln", ln), ("fi", fi), ("li", li)] =
      .ok (fn ++ "") := rfl
theorem pyFormat_t3 (fn ln fi li : String) :
    pyFormat "\x7bfn\x7d\x7bln\x7d" [("fn", fn), ("ln", ln), ("fi", fi), ("li", li)] =
      .ok (fn ++ (ln ++ "")) := rfl
theorem pyFormat_t4 (fn ln fi li : String) :
    pyFormat "\x7bfi\x7d\x7bln\x7d" [("fn", fn), ("ln", ln), ("fi", fi), ("li", li)] =
      .ok (fi ++ (ln ++ "")) := rfl
theorem pyFormat_t5 (fn ln fi li : String) :
    pyFormat "\x7bfi\x7d.\x7bln\x7d" [("fn", fn), ("ln", ln), ("fi", fi), ("li", li)] =
      .ok (fi ++ ("." ++ (ln ++ ""))) := rfl
theorem pyFormat_t6 (fn ln fi li : String) :
    pyFormat "\x7bfn\x7d\x7bli\x7d" [("fn", fn), ("ln", ln), ("fi", fi), ("li", li)] =
      .ok (fn ++ (li ++ "")) := rfl
theorem pyFormat_t7 (fn ln fi li : String) :
    pyFormat "\x7bfn\x7d.\x7bli\x7d" [("fn", fn), ("ln", ln), ("fi", fi), ("li", li)] =
      .ok (fn ++ ("." ++ (li ++ ""))) := rfl
theorem pyFormat_t8 (fn ln fi li : String) :
    pyFormat "\x7bln\x7d" [("fn", fn), ("ln", ln), ("fi", fi), ("li", li)] =
      .ok (ln ++ "") := rfl
theorem pyFormat_t9 (fn ln fi li : String) :
    pyFormat "\x7bln\x7d.\x7bfn\x7d" [("fn", fn), ("ln", ln), ("fi", fi), ("li", li)] =
      .ok (ln ++ ("." ++ (fn ++ ""))) := rfl
theorem pyFormat_t10 (fn ln fi li : String) :
    pyFormat "\x7bfn\x7d_\x7bln\x7d" [("fn", fn), ("ln", ln), ("fi", fi), ("li", li)] =
      .ok (fn ++ ("_" ++ (ln ++ ""))) := rfl

theorem construct_eq_of_tests (f l d : String) (fc lc : Char) (fr lr : List Char)
    (hf : (pyStrip (pyLower f)).data = fc :: fr)
    (hl : (pyStrip (pyLower l)).data = lc :: lr) :
    ∀ pr ∈ deduceTests (pyStrip (pyLower f)) (pyStrip (pyLower l))
        (String.singleton fc) (String.singleton lc),
    PatternEngine.construct_email pr.2 f l d = .ok (pr.1 ++ "@" ++ d) := by
  intro pr hpr
  have hfi : pyIndex0 (pyStrip (pyLower f)) = some (String.singleton fc) := by
    simp [pyIndex0, hf]
  have hli : pyIndex0 (pyStrip (pyLower l)) = some (String.singleton lc) := by
    simp [pyIndex0, hl]
  simp only [deduceTests, List.mem_cons, List.not_mem_nil, or_false] at hpr
  rcases hpr with rfl | rfl | rfl | rfl | rfl | rfl | rfl | rfl | rfl | rfl <;>
    simp only [PatternEngine.construct_email, hfi, hli, pyFormat_t1, pyFormat_t2,
      pyFormat_t3, pyFormat_t4, pyFormat_t5, pyFormat_t6, pyFormat_t7, pyFormat_t8,
      pyFormat_t9, pyFormat_t10, Except.map, str_append_empty, str_append_assoc]

theorem getLastD_mem : ∀ (l : List String) (x : String), l ≠ [] → l.getLastD x ∈ l := by
  intro l
  induction l with
  | nil => intro x h; exact absurd rfl h
  | cons a as ih =>
    intro x _
    cases as with
    | nil => simp [List.getLastD]
    | cons b bs =>
      rw [List.getLastD_cons]
      exact List.mem_cons_of_mem a (ih a (by simp))

theorem templates_to_tests (fn ln fi li : String) (t : String)
    (ht : t ∈ deducerTemplates) : ∃ inst, (inst, t) ∈ deduceTests fn ln fi li := by
  simp only [deducerTemplates, List.mem_cons, List.not_mem_nil, or_false] at ht
  rcases ht with rfl | rfl | rfl | rfl | rfl | rfl | rfl | rfl | rfl | rfl
  · exact ⟨fn ++ "." ++ ln, by simp [deduceTests]⟩
  · exact ⟨fn, by simp [deduceTests]⟩
  · exact ⟨fn ++ ln, by simp [deduceTests]⟩
  · exact ⟨fi ++ ln, by simp [deduceTests]⟩
  · exact ⟨fi ++ "." ++ ln, by simp [deduceTests]⟩
  · exact ⟨fn ++ li, by simp [deduceTests]⟩
  · exact ⟨fn ++ "." ++ li, by simp [deduceTests]⟩
  · exact ⟨ln, by simp [deduceTests]⟩
  · exact ⟨ln ++ "." ++ fn, by simp [deduceTests]⟩
  · exact ⟨fn ++ "_" ++ ln, by simp [deduceTests]⟩

theorem deducerTemplates_ne_empty : ∀ t ∈ deducerTemplates, t ≠ "" := by decide

/-- C2, amended: for every store whose looked-up template (if any) belongs
to the deducer's closed template set, every non-empty domain and every name
with at least two whitespace tokens, `generate` returns a duplicate-free
list, and when a template is stored for the normalized domain the candidate
constructed from it (via `construct_email`) occupies index 0. -/
theorem C2_pattern_priority_nodup (db : PatternDB) (full_name domain : String)
    (h2 : 2 ≤ (pySplitWs (pyStrip (pyLower full_name))).length)
    (hd : domain ≠ "")
    (hdb : ∀ t, PatternEngine.get_pattern db (pyStrip (pyLower domain)) = some t →
      t ∈ deducerTemplates) :
    ∃ cs, EmailPermutator.generate db full_name domain = .ok cs ∧ cs.Nodup ∧
      ∀ t, PatternEngine.get_pattern db (pyStrip (pyLower domain)) = some t →
        ∃ e, PatternEngine.construct_email t
            ((pySplitWs (pyStrip (pyLower full_name))).headD "")
            ((pySplitWs (pyStrip (pyLower full_name))).getLastD "")
            (pyStrip (pyLower domain)) = .ok e ∧
          cs.head? = some e := by
  have hn : full_name ≠ "" := by
    intro he
    rw [he] at h2
    exact absurd h2 (by decide)
  have hne_parts : pySplitWs (pyStrip (pyLower full_name)) ≠ [] := by
    intro hp
    rw [hp] at h2
    exact absurd h2 (by decide)
  have hfn_mem : (pySplitWs (pyStrip (pyLower full_name))).headD "" ∈
      pySplitWs (pyStrip (pyLower full_name)) := by
    rcases hp : pySplitWs (pyStrip (pyLower full_name)) with _ | ⟨a, as⟩
    · exact absurd hp hne_parts
    · simp
  have hln_mem : (pySplitWs (pyStrip (pyLower full_name))).getLastD "" ∈
      pySplitWs (pyStrip (pyLower full_name)) :=
    getLastD_mem _ "" hne_parts
  obtain ⟨hfn_low, hfn_strip, hfn_ne⟩ := token_norm full_name _ hfn_mem
  obtain ⟨hln_low, hln_strip, hln_ne⟩ := token_norm full_name _ hln_mem
  have hnormf : pyStrip (pyLower ((pySplitWs (pyStrip (pyLower full_name))).headD "")) =
      (pySplitWs (pyStrip (pyLower full_name))).headD "" := by
    rw [hfn_low, hfn_strip]
  have hnorml : pyStrip (pyLower ((pySplitWs (pyStrip (pyLower full_name))).getLastD "")) =
      (pySplitWs (pyStrip (pyLower full_name))).getLastD "" := by
    rw [hln_low, hln_strip]
  obtain ⟨fc, fr, hfc⟩ : ∃ c r,
      ((pySplitWs (pyStrip (pyLower full_name))).headD "").data = c :: r := by
    rcases hdd : ((pySplitWs (pyStrip (pyLower full_name))).headD "").data with _ | ⟨c, r⟩
    · exact absurd (String.ext hdd) hfn_ne
    · exact ⟨c, r, rfl⟩
  obtain ⟨lc, lr, hlc⟩ : ∃ c r,
      ((pySplitWs (pyStrip (pyLower full_name))).getLastD "").data = c :: r := by
    rcases hdd : ((pySplitWs (pyStrip (pyLower full_name))).getLastD "").data with _ | ⟨c, r⟩
    · exact absurd (String.ext hdd) hln_ne
    · exact ⟨c, r, rfl⟩
  have hfi : pyIndex0 ((pySplitWs (pyStrip (pyLower full_name))).headD "") =
      some (String.singleton fc) := by unfold pyIndex0; rw [hfc]
  have hli : pyIndex0 ((pySplitWs (pyStrip (pyLower full_name))).getLastD "") =
      some (String.singleton lc) := by unfold pyIndex0; rw [hlc]
  simp only [EmailPermutator.generate]
  rw [if_neg (fun h => h.elim hn hd)]
  rw [if_neg (by omega : ¬ (pySplitWs (pyStrip (pyLower full_name))).length < 2)]
  simp only [hfi, hli]
  rcases hdbv : PatternEngine.get_pattern db (pyStrip (pyLower domain)) with _ | t
  · simp only [hdbv]
    refine ⟨_, rfl, foldl_dedup_nodup _ [] (by simp), ?_⟩
    intro t htv
    exact absurd htv (by simp)
  · have htpl := hdb t hdbv
    have htne : t ≠ "" := deducerTemplates_ne_empty t htpl
    obtain ⟨inst, hmem⟩ := templates_to_tests
      (pyStrip (pyLower ((pySplitWs (pyStrip (pyLower full_name))).headD "")))
      (pyStrip (pyLower ((pySplitWs (pyStrip (pyLower full_name))).getLastD "")))
      (String.singleton fc) (String.singleton lc) t htpl
    have hcon := construct_eq_of_tests
      ((pySplitWs (pyStrip (pyLower full_name))).headD "")
      ((pySplitWs (pyStrip (pyLower full_name))).getLastD "")
      (pyStrip (pyLower domain)) fc lc fr lr
      (by rw [hnormf]; exact hfc) (by rw [hnorml]; exact hlc)
      (inst, t) hmem
    simp only [hdbv]
    rw [if_neg htne]
    rw [hcon]
    simp only [Except.map]
    refine ⟨_, rfl, foldl_dedup_nodup _ [inst ++ "@" ++ pyStrip (pyLower domain)]
      (by simp), ?_⟩
    intro t' htv'
    have ht' : t' = t := (Option.some.inj htv').symm
    subst ht'
    refine ⟨inst ++ "@" ++ pyStrip (pyLower domain), hcon, ?_⟩
    obtain ⟨tl, htl⟩ := foldl_dedup_extend _ [inst ++ "@" ++ pyStrip (pyLower domain)]
    rw [htl]
    rfl

theorem map_fix_of_eq_self {α : Type} (g : α → α) :
    ∀ (l : List α), l.map g = l → ∀ x ∈ l, g x = x := by
  intro l
  induction l with
  | nil => intro _ x hx; simp at hx
  | cons a as ih =>
    intro h x hx
    rw [List.map_cons] at h
    have h1 : g a = a := (List.cons.injEq _ _ _ _ ▸ h).1
    have h2 : as.map g = as := (List.cons.injEq _ _ _ _ ▸ h).2
    rcases List.mem_cons.mp hx with rfl | hx2
    · exact h1
    · exact ih h2 x hx2

theorem pyLower_fix_chars (s : String) (h : pyLower s = s) :
    ∀ c ∈ s.data, lowerChar c = c :=
  map_fix_of_eq_self lowerChar s.data (congrArg String.data h)

theorem good_append (a b : String)
    (ha : (∀ c ∈ a.data, c ≠ '@') ∧ pyLower a = a)
    (hb : (∀ c ∈ b.data, c ≠ '@') ∧ pyLower b = b) :
    (∀ c ∈ (a ++ b).data, c ≠ '@') ∧ pyLower (a ++ b) = a ++ b := by
  constructor
  · intro c hc
    rw [String.data_append] at hc
    rcases List.mem_append.mp hc with h | h
    · exact ha.1 c h
    · exact hb.1 c h
  · apply String.ext
    have h1 : a.data.map lowerChar = a.data := by
      rw [← pyLower_data]
      exact congrArg String.data ha.2
    have h2 : b.data.map lowerChar = b.data := by
      rw [← pyLower_data]
      exact congrArg String.data hb.2
    rw [pyLower_data, String.data_append, List.map_append, h1, h2]

theorem good_dot : (∀ c ∈ ("." : String).data, c ≠ '@') ∧ pyLower "." = "." := by
  constructor
  · decide
  · decide

theorem good_underscore :
    (∀ c ∈ ("_" : String).data, c ≠ '@') ∧ pyLower "_" = "_" := by
  constructor
  · decide
  · decide

theorem good_singleton (s : String) (c : Char) (r : List Char)
    (hdata : s.data = c :: r)
    (hat : ∀ d ∈ s.data, d ≠ '@') (hlow : pyLower s = s) :
    (∀ d ∈ (String.singleton c).data, d ≠ '@') ∧
      pyLower (String.singleton c) = String.singleton c := by
  have hcm : c ∈ s.data := by rw [hdata]; exact List.mem_cons_self c r
  constructor
  · intro d hd
    have : d = c := by simpa [String.singleton] using hd
    subst this
    exact hat d hcm
  · apply String.ext
    have : lowerChar c = c := pyLower_fix_chars s hlow c hcm
    simp [pyLower_data, String.singleton, this]

theorem deduceChain_hits (lp fn ln fi li : String)
    (hex : ∃ pr ∈ deduceTests fn ln fi li, lp = pr.1) :
    ∃ t2, deduceChain lp fn ln fi li = some t2 ∧
      (lp, t2) ∈ deduceTests fn ln fi li := by
  unfold deduceChain
  by_cases c1 : lp = fn ++ "." ++ ln
  · rw [if_pos c1]
    exact ⟨_, rfl, by rw [c1]; simp [deduceTests]⟩
  · rw [if_neg c1]
    by_cases c2 : lp = fn
    · rw [if_pos c2]
      exact ⟨_, rfl, by rw [c2]; simp [deduceTests]⟩
    · rw [if_neg c2]
      by_cases c3 : lp = fn ++ ln
      · rw [if_pos c3]
        exact ⟨_, rfl, by rw [c3]; simp [deduceTests]⟩
      · rw [if_neg c3]
        by_cases c4 : lp = fi ++ ln
        · rw [if_pos c4]
          exact ⟨_, rfl, by rw [c4]; simp [deduceTests]⟩
        · rw [if_neg c4]
          by_cases c5 : lp = fi ++ "." ++ ln
          · rw [if_pos c5]
            exact ⟨_, rfl, by rw [c5]; simp [deduceTests]⟩
          · rw [if_neg c5]
            by_cases c6 : lp = fn ++ li
            · rw [if_pos c6]
              exact ⟨_, rfl, by rw [c6]; simp [deduceTests]⟩
            · rw [if_neg c6]
              by_cases c7 : lp = fn ++ "." ++ li
              · rw [if_pos c7]
                exact ⟨_, rfl, by rw [c7]; simp [deduceTests]⟩
              · rw [if_neg c7]
                by_cases c8 : lp = ln
                · rw [if_pos c8]
                  exact ⟨_, rfl, by rw [c8]; simp [deduceTests]⟩
                · rw [if_neg c8]
                  by_cases c9 : lp = ln ++ "." ++ fn
                  · rw [if_pos c9]
                    exact ⟨_, rfl, by rw [c9]; simp [deduceTests]⟩
                  · rw [if_neg c9]
                    by_cases c10 : lp = fn ++ "_" ++ ln
                    · rw [if_pos c10]
                      exact ⟨_, rfl, by rw [c10]; simp [deduceTests]⟩
                    · rw [if_neg c10]
                      obtain ⟨pr, hpr, hlp⟩ := hex
                      simp only [deduceTests, List.mem_cons, List.not_mem_nil, or_false] at hpr
                      rcases hpr with rfl | rfl | rfl | rfl | rfl | rfl | rfl | rfl | rfl | rfl
                      · exact absurd hlp c1
                      · exact absurd hlp c2
                      · exact absurd hlp c3
                      · exact absurd hlp c4
                      · exact absurd hlp c5
                      · exact absurd hlp c6
                      · exact absurd hlp c7
                      · exact absurd hlp c8
                      · exact absurd hlp c9
                      · exact absurd hlp c10

/-- C8, amended: for every template in the deducer's test set and every
pair of non-empty, lower-case, whitespace-free, `@`-free names,
`deduce_pattern` applied to the constructed address returns a (non-null)
template that constructs that same address — the first template in the
fixed test order whose instantiation equals the local part; it is the
original template whenever no earlier template collides on these names. -/
theorem C8_roundtrip_reconstructs (t f l d : String)
    (htpl : t ∈ deducerTemplates)
    (hf_ne : f ≠ "") (hl_ne : l ≠ "")
    (hf_low : pyLower f = f) (hl_low : pyLower l = l)
    (hf_st : pyStrip f = f) (hl_st : pyStrip l = l)
    (hf_at : ∀ c ∈ f.data, c ≠ '@') (hl_at : ∀ c ∈ l.data, c ≠ '@') :
    ∃ e, PatternEngine.construct_email t f l d = .ok e ∧
      ∃ t2, PatternEngine.deduce_pattern e f l d = .ok (some t2) ∧
        PatternEngine.construct_email t2 f l d = .ok e := by
  have hnormf : pyStrip (pyLower f) = f := by rw [hf_low, hf_st]
  have hnorml : pyStrip (pyLower l) = l := by rw [hl_low, hl_st]
  obtain ⟨fc, fr, hfc⟩ : ∃ c r, f.data = c :: r := by
    rcases hdd : f.data with _ | ⟨c, r⟩
    · exact absurd (String.ext hdd) hf_ne
    · exact ⟨c, r, rfl⟩
  obtain ⟨lc, lr, hlc⟩ : ∃ c r, l.data = c :: r := by
    rcases hdd : l.data with _ | ⟨c, r⟩
    · exact absurd (String.ext hdd) hl_ne
    · exact ⟨c, r, rfl⟩
  have hfc' : (pyStrip (pyLower f)).data = fc :: fr := by rw [hnormf]; exact hfc
  have hlc' : (pyStrip (pyLower l)).data = lc :: lr := by rw [hnorml]; exact hlc
  obtain ⟨inst, hmem⟩ := templates_to_tests (pyStrip (pyLower f)) (pyStrip (pyLower l))
    (String.singleton fc) (String.singleton lc) t htpl
  have hcon := construct_eq_of_tests f l d fc lc fr lr hfc' hlc' (inst, t) hmem
  have gF : (∀ c ∈ (pyStrip (pyLower f)).data, c ≠ '@') ∧
      pyLower (pyStrip (pyLower f)) = pyStrip (pyLower f) := by
    rw [hnormf]; exact ⟨hf_at, hf_low⟩
  have gL : (∀ c ∈ (pyStrip (pyLower l)).data, c ≠ '@') ∧
      pyLower (pyStrip (pyLower l)) = pyStrip (pyLower l) := by
    rw [hnorml]; exact ⟨hl_at, hl_low⟩
  have gfc := good_singleton (pyStrip (pyLower f)) fc fr hfc' gF.1 gF.2
  have glc := good_singleton (pyStrip (pyLower l)) lc lr hlc' gL.1 gL.2
  have ginst : (∀ c ∈ inst.data, c ≠ '@') ∧ pyLower inst = inst := by
    have hmem0 := hmem
    simp only [deduceTests, List.mem_cons, List.not_mem_nil, or_false, Prod.mk.injEq]
      at hmem0
    rcases hmem0 with h | h | h | h | h | h | h | h | h | h <;>
      obtain ⟨rfl, rfl⟩ := h <;>
      first
        | exact gF
        | exact gL
        | exact good_append _ _ gF gL
        | exact good_append _ _ gfc gL
        | exact good_append _ _ gF glc
        | exact good_append _ _ (good_append _ _ gF good_dot) gL
        | exact good_append _ _ (good_append _ _ gfc good_dot) gL
        | exact good_append _ _ (good_append _ _ gF good_dot) glc
        | exact good_append _ _ (good_append _ _ gL good_dot) gF
        | exact good_append _ _ (good_append _ _ gF good_underscore) gL
  refine ⟨inst ++ "@" ++ d, hcon, ?_⟩
  have he_ne : inst ++ "@" ++ d ≠ "" := by
    rw [str_ne_empty_iff, String.data_append, String.data_append, str_data_at]
    simp
  have hlp : pyLower (pyBeforeAt (inst ++ "@" ++ d)) = inst := by
    rw [pyBeforeAt_append inst d ginst.1]
    exact ginst.2
  have hfi : pyIndex0 (pyStrip (pyLower f)) = some (String.singleton fc) := by
    unfold pyIndex0; rw [hfc']
  have hli : pyIndex0 (pyStrip (pyLower l)) = some (String.singleton lc) := by
    unfold pyIndex0; rw [hlc']
  obtain ⟨t2, hchain, hmem2⟩ := deduceChain_hits inst (pyStrip (pyLower f))
    (pyStrip (pyLower l)) (String.singleton fc) (String.singleton lc)
    ⟨(inst, t), hmem, rfl⟩
  refine ⟨t2, ?_, ?_⟩
  · simp only [PatternEngine.deduce_pattern]
    rw [if_neg (fun h => h.elim (fun h1 => he_ne h1)
      (fun h2 => h2.elim (fun ha => hf_ne ha) (fun hb => hl_ne hb)))]
    simp only [hfi, hli]
    rw [hlp, hchain]
  · exact construct_eq_of_tests f l d fc lc fr lr hfc' hlc' (inst, t2) hmem2

/-- C8, counterexample: the round-trip is not the identity on templates.
For first name `"s"` and last name `"altman"`, the template
`"\x7bfi\x7d\x7bln\x7d"` constructs `saltman@x.com`, but `deduce_pattern`
tests `"\x7bfn\x7d\x7bln\x7d"` earlier and that template matches the same
local part, so the deduced template differs from the constructed one. -/
theorem C8_counterexample :
    "\x7bfi\x7d\x7bln\x7d" ∈ deducerTemplates ∧
    PatternEngine.construct_email "\x7bfi\x7d\x7bln\x7d" "s" "altman" "x.com" =
      .ok "saltman@x.com" ∧
    PatternEngine.deduce_pattern "saltman@x.com" "s" "altman" "x.com" =
      .ok (some "\x7bfn\x7d\x7bln\x7d") ∧
    ("\x7bfn\x7d\x7bln\x7d" : String) ≠ "\x7bfi\x7d\x7bln\x7d" := by decide

/-- Witness for C8: the round-trip at template `\x7bfn\x7d.\x7bln\x7d` with
names `sam`/`altman`. -/
theorem C8_roundtrip_reconstructs_witness :
    ∃ e, PatternEngine.construct_email "\x7bfn\x7d.\x7bln\x7d" "sam" "altman" "x.com" =
        .ok e ∧
      ∃ t2, PatternEngine.deduce_pattern e "sam" "altman" "x.com" = .ok (some t2) ∧
        PatternEngine.construct_email t2 "sam" "altman" "x.com" = .ok e :=
  C8_roundtrip_reconstructs "\x7bfn\x7d.\x7bln\x7d" "sam" "altman" "x.com"
    (by decide) (by decide) (by decide) (by decide) (by decide) (by decide)
    (by decide) (by decide) (by decide)

/-- C2, counterexample: the claim as stated fails at the reachable inputs
it quantifies over.  With the empty domain (stored via `save_pattern("",
"\x7bfn\x7d")`), `get_pattern` is non-null yet `generate` returns `[]`, so
no candidate occupies index 0; and with a stored garbage template
`"\x7bzz\x7d"` (which `save_pattern` accepts), `generate` raises `KeyError`
instead of returning a list at all. -/
theorem C2_counterexample :
    PatternEngine.get_pattern
        (PatternEngine.save_pattern emptyDb "" (some "\x7bfn\x7d")) "" ≠ none ∧
    2 ≤ (pySplitWs (pyStrip (pyLower "sam altman"))).length ∧
    EmailPermutator.generate
        (PatternEngine.save_pattern emptyDb "" (some "\x7bfn\x7d")) "sam altman" "" =
      .ok [] ∧
    EmailPermutator.generate
        (PatternEngine.save_pattern emptyDb "openai.com" (some "\x7bzz\x7d"))
        "sam altman" "openai.com" = .error PyExc.keyError := by decide

/-- Witness for C2: with the learned pattern `\x7bfn\x7d.\x7bli\x7d` stored
for `openai.com`, generation for "Sam Altman" puts `sam.a@openai.com`
first and produces no duplicates. -/
theorem C2_pattern_priority_nodup_witness :
    ∃ cs, EmailPermutator.generate
        (PatternEngine.save_pattern emptyDb "openai.com" (some "\x7bfn\x7d.\x7bli\x7d"))
        "Sam Altman" "openai.com" = .ok cs ∧ cs.Nodup ∧
      ∀ t, PatternEngine.get_pattern
          (PatternEngine.save_pattern emptyDb "openai.com" (some "\x7bfn\x7d.\x7bli\x7d"))
          (pyStrip (pyLower "openai.com")) = some t →
        ∃ e, PatternEngine.construct_email t
            ((pySplitWs (pyStrip (pyLower "Sam Altman"))).headD "")
            ((pySplitWs (pyStrip (pyLower "Sam Altman"))).getLastD "")
            (pyStrip (pyLower "openai.com")) = .ok e ∧
          cs.head? = some e :=
  C2_pattern_priority_nodup
    (PatternEngine.save_pattern emptyDb "openai.com" (some "\x7bfn\x7d.\x7bli\x7d"))
    "Sam Altman" "openai.com" (by decide) (by decide)
    (fun t ht => by
      have h2 : some "\x7bfn\x7d.\x7bli\x7d" = some t := ht
      cases h2
      decide)
